import Mathlib

/-!
Shallow embedding of the geometry and wall-topology core of the floorplan
editor (src/geometry.js and src/app.js), and proofs about it.

Modelling conventions:
* JS numbers are modelled as rationals; every branch condition of the
  embedded code is decidable and every definition is executable.
* Euclidean distances (Math.hypot) are represented by their squares.  Every
  use of a distance in the source either compares it with another distance
  or with a threshold, and for nonnegative reals a < b holds iff a*a < b*b,
  so the square determines every comparison the source makes.  Where a
  threshold may be negative or the source returns Infinity, dedicated
  helpers (sqrtLt, sqrtGt, an Option result) keep the translation exact.
* JS object identity (the === comparisons of app.js) is modelled by an id
  field; distinct live objects have distinct ids, and objects freshly
  created by the topology pass receive a fresh id.
-/

namespace Huxingtu

/-- The object kinds of the editor (the obj.type strings of app.js). -/
inductive ObjType where
  | wall
  | door
  | window
  | furniture
deriving DecidableEq

/-- A drawable object of app.js: a segment with non-geometric attributes.
The id field models JavaScript reference identity. -/
structure Obj where
  id : Nat
  type : ObjType
  x1 : ℚ
  y1 : ℚ
  x2 : ℚ
  y2 : ℚ
  width : ℚ
  height : ℚ
  color : String
deriving DecidableEq

/-- A bare segment record, as used for gap segments in app.js. -/
structure Seg where
  x1 : ℚ
  y1 : ℚ
  x2 : ℚ
  y2 : ℚ
deriving DecidableEq

/-- The segment carried by an object. -/
def Obj.seg (o : Obj) : Seg := ⟨o.x1, o.y1, o.x2, o.y2⟩

/-- Square of the Euclidean distance Math.hypot(cx - ax, cy - ay). -/
def sqDist (ax ay cx cy : ℚ) : ℚ := (cx - ax) * (cx - ax) + (cy - ay) * (cy - ay)

/-- Math.hypot(...) < t on the squared representation: for dSq ≥ 0,
sqrt dSq < t iff 0 < t and dSq < t*t. -/
def sqrtLt (dSq t : ℚ) : Bool := decide (0 < t) && decide (dSq < t * t)

/-- Math.hypot(...) > t on the squared representation: for dSq ≥ 0,
sqrt dSq > t iff t < 0 or t*t < dSq. -/
def sqrtGt (dSq t : ℚ) : Bool := decide (t < 0) || decide (t * t < dSq)

/-- geometry.js pointToLineDistance, represented by the square of its value;
none models the source's Infinity result (len < 1e-6, i.e. lenSq < 1e-12).
The finite value is |cross| / len, whose square is cross^2 / lenSq. -/
def pointToLineDistanceSq (px py x1 y1 x2 y2 : ℚ) : Option ℚ :=
  let dx := x2 - x1
  let dy := y2 - y1
  let lenSq := dx * dx + dy * dy
  if lenSq < 1 / 1000000000000 then none
  else some (((px - x1) * dy - (py - y1) * dx) * ((px - x1) * dy - (py - y1) * dx) / lenSq)

/-- The comparison pointToLineDistance(...) < tol on the squared
representation: Infinity < tol is false for every tol, and a finite
distance d satisfies d < tol iff 0 < tol and d^2 < tol^2. -/
def ptldLt (d : Option ℚ) (tol : ℚ) : Bool :=
  match d with
  | none => false
  | some dSq => sqrtLt dSq tol

/-- geometry.js areSegmentsCollinear: both endpoints of segB lie within
tolerance (default 6) of the infinite line through segA.  (The source's
null-object guard cannot fire in the embedding.) -/
def areSegmentsCollinear (segA segB : Seg) (tolerance : ℚ := 6) : Bool :=
  ptldLt (pointToLineDistanceSq segB.x1 segB.y1 segA.x1 segA.y1 segA.x2 segA.y2) tolerance &&
  ptldLt (pointToLineDistanceSq segB.x2 segB.y2 segA.x1 segA.y1 segA.x2 segA.y2) tolerance

/-- Result record of closestPointOnSegment; dist is carried as its square. -/
structure ClosestPt where
  x : ℚ
  y : ℚ
  distSq : ℚ
deriving DecidableEq

/-- geometry.js closestPointOnSegment: projection onto the segment with the
parameter clamped to [0, 1]; a degenerate segment (lenSq < 1e-6) yields its
first endpoint. -/
def closestPointOnSegment (px py x1 y1 x2 y2 : ℚ) : ClosestPt :=
  let dx := x2 - x1
  let dy := y2 - y1
  let lenSq := dx * dx + dy * dy
  if lenSq < 1 / 1000000 then
    ⟨x1, y1, sqDist px py x1 y1⟩
  else
    let t := max 0 (min 1 (((px - x1) * dx + (py - y1) * dy) / lenSq))
    let cx := x1 + t * dx
    let cy := y1 + t * dy
    ⟨cx, cy, sqDist px py cx cy⟩

/-- Accumulator of snapToObjects: the snapped point so far and, once some
candidate has beaten the initial threshold, the squared distance of the
best candidate (none while minDist still equals the threshold). -/
structure SnapAcc where
  sx : ℚ
  sy : ℚ
  bestSq : Option ℚ
deriving DecidableEq

/-- The dist < minDist test of the consider closure in snapToObjects. -/
def snapLt (dSq threshold : ℚ) : Option ℚ → Bool
  | none => sqrtLt dSq threshold
  | some b => decide (dSq < b)

/-- One consider(px, py, dist) step of snapToObjects. -/
def considerStep (threshold : ℚ) (acc : SnapAcc) (c : ℚ × ℚ × ℚ) : SnapAcc :=
  if snapLt c.2.2 threshold acc.bestSq then ⟨c.1, c.2.1, some c.2.2⟩ else acc

/-- The three candidates an object contributes in snapToObjects, in source
order: its two endpoints, then the closest point on its segment. -/
def candidatesOf (x y : ℚ) (obj : Obj) : List (ℚ × ℚ × ℚ) :=
  [(obj.x1, obj.y1, sqDist x y obj.x1 obj.y1),
   (obj.x2, obj.y2, sqDist x y obj.x2 obj.y2),
   ((closestPointOnSegment x y obj.x1 obj.y1 obj.x2 obj.y2).x,
    (closestPointOnSegment x y obj.x1 obj.y1 obj.x2 obj.y2).y,
    (closestPointOnSegment x y obj.x1 obj.y1 obj.x2 obj.y2).distSq)]

/-- geometry.js snapToObjects. -/
def snapToObjects (x y : ℚ) (objects : List Obj) (scale : ℚ)
    (excludeObjects : List Obj := []) : ℚ × ℚ :=
  let snapThreshold := 15 / scale
  let acc := objects.foldl
    (fun acc obj =>
      if excludeObjects.any (fun e => e.id == obj.id) then acc
      else (candidatesOf x y obj).foldl (considerStep snapThreshold) acc)
    ⟨x, y, none⟩
  (acc.sx, acc.sy)

/-- All snap candidates contributed by the non-excluded objects, in
traversal order (used to state properties of snapToObjects). -/
def snapCandidates (x y : ℚ) (objects excludeObjects : List Obj) : List (ℚ × ℚ × ℚ) :=
  (objects.filter fun obj => !(excludeObjects.any fun e => e.id == obj.id)).flatMap
    (candidatesOf x y)

/-- Axis-aligned bounds as computed by geometry.js getBounds and
getSelectionBounds; the center coordinates are derived fields. -/
structure Box where
  left : ℚ
  right : ℚ
  top : ℚ
  bottom : ℚ
deriving DecidableEq

/-- centerX of a bounds record. -/
def Box.centerX (b : Box) : ℚ := (b.left + b.right) / 2

/-- centerY of a bounds record. -/
def Box.centerY (b : Box) : ℚ := (b.top + b.bottom) / 2

/-- geometry.js getBounds (the null-object guard cannot fire here). -/
def getBounds (obj : Obj) : Box :=
  ⟨min obj.x1 obj.x2, max obj.x1 obj.x2, min obj.y1 obj.y2, max obj.y1 obj.y2⟩

/-- geometry.js getSelectionBounds: none for an empty selection, otherwise
min/max folded over every endpoint (the source folds from plus/minus
Infinity, which on a nonempty list equals folding from the first object's
own bounds). -/
def getSelectionBounds : List Obj → Option Box
  | [] => none
  | obj :: rest =>
    some (rest.foldl
      (fun b o =>
        ⟨min b.left (min o.x1 o.x2), max b.right (max o.x1 o.x2),
         min b.top (min o.y1 o.y2), max b.bottom (max o.y1 o.y2)⟩)
      (getBounds obj))

/-- One bestX/bestY update of getAlignmentCorrection: replace the running
(dist, value) pair when the new delta is strictly smaller in magnitude. -/
def alignStep (best : ℚ × ℚ) (selV tV : ℚ) : ℚ × ℚ :=
  let d := tV - selV
  if |d| < best.1 then (|d|, d) else best

/-- geometry.js getAlignmentCorrection. -/
def getAlignmentCorrection (selectionBounds : Option Box) (dx dy : ℚ)
    (targets : List Obj) (scale : ℚ) : ℚ × ℚ :=
  match selectionBounds with
  | none => (0, 0)
  | some sb =>
    if targets.isEmpty then (0, 0)
    else
      let threshold := 40 / scale
      let selectionX := [sb.left + dx, sb.centerX + dx, sb.right + dx]
      let selectionY := [sb.top + dy, sb.centerY + dy, sb.bottom + dy]
      let best := targets.foldl
        (fun (best : (ℚ × ℚ) × (ℚ × ℚ)) target =>
          let tb := getBounds target
          let targetXs := [tb.left, tb.centerX, tb.right]
          let targetYs := [tb.top, tb.centerY, tb.bottom]
          (selectionX.foldl (fun bX selX => targetXs.foldl (fun bX tx => alignStep bX selX tx) bX)
            best.1,
           selectionY.foldl (fun bY selY => targetYs.foldl (fun bY ty => alignStep bY selY ty) bY)
            best.2))
        ((threshold, 0), (threshold, 0))
      (best.1.2, best.2.2)

/-- Accumulator of the endpoint phase of getMoveSnapCorrection. -/
structure MoveAcc where
  cx : ℚ
  cy : ℚ
  bestSq : Option ℚ
deriving DecidableEq

/-- One snapP1/snapP2 update of the endpoint phase of getMoveSnapCorrection. -/
def moveConsider (threshold : ℚ) (acc : MoveAcc) (px py : ℚ) (cp : ClosestPt) : MoveAcc :=
  if snapLt cp.distSq threshold acc.bestSq then ⟨cp.x - px, cp.y - py, some cp.distSq⟩ else acc

/-- The endpoint-snap loops of getMoveSnapCorrection (geometry.js 65-86):
each selected endpoint, shifted by the proposed delta, against the closest
point of every unselected target. -/
def moveEndpointCorrection (dx dy : ℚ) (selection unselected : List Obj)
    (threshold : ℚ) : MoveAcc :=
  selection.foldl
    (fun acc selObj =>
      unselected.foldl
        (fun acc target =>
          let acc1 := moveConsider threshold acc (selObj.x1 + dx) (selObj.y1 + dy)
            (closestPointOnSegment (selObj.x1 + dx) (selObj.y1 + dy)
              target.x1 target.y1 target.x2 target.y2)
          moveConsider threshold acc1 (selObj.x2 + dx) (selObj.y2 + dy)
            (closestPointOnSegment (selObj.x2 + dx) (selObj.y2 + dy)
              target.x1 target.y1 target.x2 target.y2))
        acc)
    ⟨0, 0, none⟩

/-- geometry.js getMoveSnapCorrection: endpoint snap, then the per-axis
alignment override. -/
def getMoveSnapCorrection (dx dy : ℚ) (selection objects : List Obj) (scale : ℚ) : ℚ × ℚ :=
  let snapThreshold := 15 / scale
  let unselected := objects.filter fun obj => !(selection.any fun s => s.id == obj.id)
  if unselected.isEmpty then (0, 0)
  else
    let acc := moveEndpointCorrection dx dy selection unselected snapThreshold
    let alignment := getAlignmentCorrection (getSelectionBounds selection) dx dy unselected scale
    let correctionX :=
      if alignment.1 ≠ 0 ∧ (acc.cx = 0 ∨ |alignment.1| < |acc.cx|) then alignment.1 else acc.cx
    let correctionY :=
      if alignment.2 ≠ 0 ∧ (acc.cy = 0 ∨ |alignment.2| < |acc.cy|) then alignment.2 else acc.cy
    (correctionX, correctionY)

/-- geometry.js isSegmentContained: both endpoints of inner project strictly
inside (epsilon, 1 - epsilon) on outer's parametrization; false for a
degenerate outer (lenSq < 1e-6). -/
def isSegmentContained (inner outer : Seg) (epsilon : ℚ := 1/100) : Bool :=
  let dx := outer.x2 - outer.x1
  let dy := outer.y2 - outer.y1
  let lenSq := dx * dx + dy * dy
  if lenSq < 1 / 1000000 then false
  else
    let t1 := ((inner.x1 - outer.x1) * dx + (inner.y1 - outer.y1) * dy) / lenSq
    let t2 := ((inner.x2 - outer.x1) * dx + (inner.y2 - outer.y1) * dy) / lenSq
    decide (min t1 t2 > epsilon) && decide (max t1 t2 < 1 - epsilon)

/-- geometry.js segmentsOverlap: the projection interval of segB on segA
meets [0, 1] within epsilon slack; false for a degenerate segA. -/
def segmentsOverlap (segA segB : Seg) (epsilon : ℚ := 1/100) : Bool :=
  let dx := segA.x2 - segA.x1
  let dy := segA.y2 - segA.y1
  let lenSq := dx * dx + dy * dy
  if lenSq < 1 / 1000000 then false
  else
    let b1 := ((segB.x1 - segA.x1) * dx + (segB.y1 - segA.y1) * dy) / lenSq
    let b2 := ((segB.x2 - segA.x1) * dx + (segB.y2 - segA.y1) * dy) / lenSq
    !(decide (max b1 b2 < 0 - epsilon) || decide (min b1 b2 > 1 + epsilon))

/-- Result record of getClosestEndpoints; the distance is carried as its
square. -/
structure ClosestPair where
  p1x : ℚ
  p1y : ℚ
  p2x : ℚ
  p2y : ℚ
  distSq : ℚ
deriving DecidableEq

/-- geometry.js getClosestEndpoints: the best of the four endpoint pairs in
the source's enumeration order; the strict < means the first minimum wins.
(The source's best === null case only occurs before the first pair, so the
first pair serves as the initial best.) -/
def getClosestEndpoints (segA segB : Seg) : ClosestPair :=
  let cand := fun (ax ay cx cy : ℚ) => ClosestPair.mk ax ay cx cy (sqDist ax ay cx cy)
  let pick := fun (best c : ClosestPair) => if c.distSq < best.distSq then c else best
  pick (pick (pick (cand segA.x1 segA.y1 segB.x1 segB.y1)
                   (cand segA.x1 segA.y1 segB.x2 segB.y2))
             (cand segA.x2 segA.y2 segB.x1 segB.y1))
       (cand segA.x2 segA.y2 segB.x2 segB.y2)

/-- geometry.js getCombinedSegment: the span of the four endpoints projected
on segA's direction; none when segA is degenerate.  (The source folds min
and max from plus/minus Infinity over the four projections, which equals
folding from the first projection.) -/
def getCombinedSegment (segA segB : Seg) : Option Seg :=
  let dx := segA.x2 - segA.x1
  let dy := segA.y2 - segA.y1
  let lenSq := dx * dx + dy * dy
  if lenSq < 1 / 1000000 then none
  else
    let project := fun (px py : ℚ) => ((px - segA.x1) * dx + (py - segA.y1) * dy) / lenSq
    let ts := [project segA.x1 segA.y1, project segA.x2 segA.y2,
               project segB.x1 segB.y1, project segB.x2 segB.y2]
    let minT := ts.foldl min (project segA.x1 segA.y1)
    let maxT := ts.foldl max (project segA.x1 segA.y1)
    some ⟨segA.x1 + dx * minT, segA.y1 + dy * minT, segA.x1 + dx * maxT, segA.y1 + dy * maxT⟩

/-- geometry.js isGapBlocked: some object other than segA/segB touches a gap
endpoint within 2 world units, or (for a nondegenerate gap) is collinear
with and overlaps the gap segment with epsilon 0.001. -/
def isGapBlocked (gapSegment : Seg) (segA segB : Obj) (objects : List Obj) : Bool :=
  let touchTolerance : ℚ := 2
  let gapLenSq := sqDist gapSegment.x1 gapSegment.y1 gapSegment.x2 gapSegment.y2
  objects.any fun obj =>
    if obj.id == segA.id || obj.id == segB.id then false
    else
      let touchesEndpoint :=
        sqrtLt (sqDist obj.x1 obj.y1 gapSegment.x1 gapSegment.y1) touchTolerance ||
        sqrtLt (sqDist obj.x2 obj.y2 gapSegment.x1 gapSegment.y1) touchTolerance ||
        sqrtLt (sqDist obj.x1 obj.y1 gapSegment.x2 gapSegment.y2) touchTolerance ||
        sqrtLt (sqDist obj.x2 obj.y2 gapSegment.x2 gapSegment.y2) touchTolerance
      if touchesEndpoint then true
      else if gapLenSq < 1 / 1000000000000 then false
      else areSegmentsCollinear gapSegment obj.seg 6 && segmentsOverlap gapSegment obj.seg (1/1000)

/-- The editor state the topology pass operates on (the relevant fields of
app.js state). -/
structure AppState where
  objects : List Obj
  selection : List Obj
  scale : ℚ
deriving DecidableEq

/-- Fresh identity for an object created by the topology pass: one past the
largest id in the collection (models allocation of a new JS object). -/
def freshId (objects : List Obj) : Nat :=
  objects.foldl (fun m o => max m o.id) 0 + 1

/-- obj.type === 'wall'. -/
def isWall (o : Obj) : Bool := decide (o.type = ObjType.wall)

/-- The guard of the split loop in checkAndSplitObjects (app.js 1343-1347):
the candidate is not the active object itself, is a wall, is collinear with
the active segment, and strictly contains it (default tolerances 6 and
0.01). -/
def splitQualifies (activeObj otherObj : Obj) : Bool :=
  !(otherObj.id == activeObj.id) && isWall otherObj &&
  areSegmentsCollinear otherObj.seg activeObj.seg 6 &&
  isSegmentContained activeObj.seg otherObj.seg (1/100)

/-- splitStart and splitEnd of app.js 1351-1369: the end points of the
active segment's projected interval on the wall being split. -/
def splitPoints (activeObj otherObj : Obj) : (ℚ × ℚ) × (ℚ × ℚ) :=
  let dX := otherObj.x2 - otherObj.x1
  let dY := otherObj.y2 - otherObj.y1
  let wallLenSq := dX * dX + dY * dY
  let t1 := ((activeObj.x1 - otherObj.x1) * dX + (activeObj.y1 - otherObj.y1) * dY) / wallLenSq
  let t2 := ((activeObj.x2 - otherObj.x1) * dX + (activeObj.y2 - otherObj.y1) * dY) / wallLenSq
  let tStart := min t1 t2
  let tEnd := max t1 t2
  ((otherObj.x1 + tStart * dX, otherObj.y1 + tStart * dY),
   (otherObj.x1 + tEnd * dX, otherObj.y1 + tEnd * dY))

/-- The in-place truncation of the split wall (app.js 1381-1382): its second
endpoint becomes splitStart. -/
def splitTruncate (activeObj otherObj : Obj) : Obj :=
  { otherObj with
    x2 := (splitPoints activeObj otherObj).1.1,
    y2 := (splitPoints activeObj otherObj).1.2 }

/-- segment2 of app.js 1373-1379: the remainder from splitEnd to the
original second endpoint, inheriting every non-geometric attribute of the
split wall; newId models the fresh identity of the new JS object. -/
def splitRemainder (activeObj otherObj : Obj) (newId : Nat) : Obj :=
  { otherObj with
    id := newId,
    x1 := (splitPoints activeObj otherObj).2.1,
    y1 := (splitPoints activeObj otherObj).2.2 }

/-- Map the elements of a list through f fed with a counter starting at n
(hands consecutive fresh ids to the pushed split remainders). -/
def mapWithIds (f : Obj → Nat → Obj) : Nat → List Obj → List Obj
  | _, [] => []
  | n, o :: rest => f o n :: mapWithIds f (n + 1) rest

/-- app.js checkAndSplitObjects: the collection after the pass and the
splitOccurred flag.  The source mutates qualifying walls in place during
the forEach and pushes the collected remainders afterwards; activeObj is
never mutated, so reading each qualifying wall's original fields is exact. -/
def checkAndSplitObjects (activeObj : Obj) (objects : List Obj) : List Obj × Bool :=
  let splitOccurred := objects.any (splitQualifies activeObj)
  let updated := objects.map fun o =>
    if splitQualifies activeObj o then splitTruncate activeObj o else o
  let newObjects :=
    mapWithIds (splitRemainder activeObj) (freshId objects)
      (objects.filter (splitQualifies activeObj))
  (if splitOccurred then updated ++ newObjects else updated, splitOccurred)

/-- The (i, j), i < j pair enumeration of the nested merge loops of
checkAndMergeWalls. -/
def wallPairs : List Obj → List (Obj × Obj)
  | [] => []
  | w :: ws => ws.map (fun w2 => (w, w2)) ++ wallPairs ws

/-- The guards of the merge loop body for one pair (app.js 1405-1418): the
merged span when every guard passes, none when the pair is skipped. -/
def mergeCandidate (objects : List Obj) (scale : ℚ) (w1 w2 : Obj) : Option Seg :=
  if !areSegmentsCollinear w1.seg w2.seg 6 then none
  else
    let closest := getClosestEndpoints w1.seg w2.seg
    let gapSegment : Seg := ⟨closest.p1x, closest.p1y, closest.p2x, closest.p2y⟩
    if sqrtGt closest.distSq (150 / scale) then none
    else if isGapBlocked gapSegment w1 w2 objects then none
    else getCombinedSegment w1.seg w2.seg

/-- One full scan of the nested merge loops: the first qualifying pair in
(i, j) order, together with its merged span. -/
def findMerge (objects : List Obj) (scale : ℚ) : Option (Obj × Obj × Seg) :=
  (wallPairs (objects.filter isWall)).findSome? fun p =>
    (mergeCandidate objects scale p.1 p.2).map fun s => (p.1, p.2, s)

/-- The merged object pushed by a merge (app.js 1421-1427): w1's attributes
with the combined span's coordinates; newId models the fresh JS identity. -/
def mergedObjOf (w1 : Obj) (span : Seg) (newId : Nat) : Obj :=
  { w1 with id := newId, x1 := span.x1, y1 := span.y1, x2 := span.x2, y2 := span.y2 }

/-- The merge action (app.js 1420-1431): remove w1 and w2, push the merged
wall (a fresh object inheriting w1's attributes), and replace the selection
with the merged wall when it contained either source wall. -/
def applyMerge (st : AppState) (w1 w2 : Obj) (span : Seg) (newId : Nat) : AppState :=
  let mergedObj : Obj := mergedObjOf w1 span newId
  { objects := (st.objects.filter fun o => !(o.id == w1.id || o.id == w2.id)) ++ [mergedObj],
    selection :=
      if st.selection.any (fun o => o.id == w1.id) || st.selection.any (fun o => o.id == w2.id)
      then [mergedObj] else st.selection,
    scale := st.scale }

/-- The do/while loop of checkAndMergeWalls with explicit fuel; none means
the fuel ran out before a scan found no merge. -/
def mergeLoop : Nat → AppState → Option AppState
  | 0, _ => none
  | fuel + 1, st =>
    match findMerge st.objects st.scale with
    | none => some st
    | some (w1, w2, span) => mergeLoop fuel (applyMerge st w1 w2 span (freshId st.objects))

/-- app.js checkAndMergeWalls.  The loop reaches its fixed point within
objects.length scans because every merge strictly shrinks the collection
(proved below), so the getD default is never taken. -/
def checkAndMergeWalls (st : AppState) : AppState :=
  (mergeLoop (st.objects.length + 1) st).getD st

/-! ### Concrete objects used by the scenario claims -/

/-- Wall (0,0)-(50,0) of the merge scenario. -/
def c1w1 : Obj := ⟨1, ObjType.wall, 0, 0, 50, 0, 10, 250, "#888888"⟩

/-- Wall (52,0)-(100,0) of the merge scenario. -/
def c1w2 : Obj := ⟨2, ObjType.wall, 52, 0, 100, 0, 10, 250, "#888888"⟩

/-- A door with an endpoint exactly at (51,0), inside the merge gap. -/
def c1door : Obj := ⟨3, ObjType.door, 51, 0, 51, 30, 8, 200, "#aa7744"⟩

/-- Wall (0,0)-(100,0) of the split scenario. -/
def c2other : Obj := ⟨1, ObjType.wall, 0, 0, 100, 0, 10, 250, "#888888"⟩

/-- Active door segment (30,0)-(70,0) of the split scenario. -/
def c2active : Obj := ⟨2, ObjType.door, 30, 0, 70, 0, 8, 200, "#aa7744"⟩

/-! ### Claim theorems

The arithmetic of ℚ is kept reducible so that concrete runs of the embedded
program can be settled by kernel evaluation. -/

attribute [local semireducible] Rat.add Rat.mul Rat.sub Rat.inv

/-- C1.  Merge correctness at scale 1: the two collinear walls
(0,0)-(50,0) and (52,0)-(100,0) with gap 2 and no blocking object merge
into the single wall (0,0)-(100,0); and with a door whose endpoint lies at
(51,0), isGapBlocked reports the gap blocked and checkAndMergeWalls leaves
the collection (both walls included) unchanged. -/
theorem C1_merge_correctness :
    checkAndMergeWalls ⟨[c1w1, c1w2], [], 1⟩ =
      ⟨[⟨3, ObjType.wall, 0, 0, 100, 0, 10, 250, "#888888"⟩], [], 1⟩ ∧
    isGapBlocked ⟨50, 0, 52, 0⟩ c1w1 c1w2 [c1w1, c1w2, c1door] = true ∧
    checkAndMergeWalls ⟨[c1w1, c1w2, c1door], [], 1⟩ = ⟨[c1w1, c1w2, c1door], [], 1⟩ := by
  decide

/-- C2.  Split correctness: for wall other = (0,0)-(100,0) and active
segment (30,0)-(70,0), isSegmentContained(active, other, 0.01) holds, and
checkAndSplitObjects truncates other to (0,0)-(30,0) and adds exactly one
new wall (70,0)-(100,0); both resulting walls keep other's original type,
width, height and color. -/
theorem C2_split_correctness :
    isSegmentContained c2active.seg c2other.seg (1/100) = true ∧
    checkAndSplitObjects c2active [c2other, c2active] =
      ([⟨1, ObjType.wall, 0, 0, 30, 0, 10, 250, "#888888"⟩, c2active,
        ⟨3, ObjType.wall, 70, 0, 100, 0, 10, 250, "#888888"⟩], true) := by
  decide

/-- C4 counterexample.  The claim calls a segment degenerate when its
endpoint distance is below 1e-3.  The segment (0,0)-(1e-4,0) has endpoint
distance 1e-4 < 1e-3, yet pointToLineDistance computes a finite value for
it (the source's guard is len < 1e-6, not len < 1e-3): from p = (0,1) the
returned distance is 1 (squared: some 1), not Infinity. -/
theorem C4_counterexample :
    sqDist 0 0 (1/10000) 0 < (1/1000) * (1/1000) ∧
    pointToLineDistanceSq 0 1 0 0 (1/10000) 0 = some 1 := by
  decide

/-- C4 (amended).  pointToLineDistance returns Infinity exactly on the
source's own degeneracy guard: endpoint distance below 1e-6 (squared
distance below 1e-12), for every query point. -/
theorem C4_pointToLineDistance_degenerate (px py x1 y1 x2 y2 : ℚ)
    (h : sqDist x1 y1 x2 y2 < 1 / 1000000000000) :
    pointToLineDistanceSq px py x1 y1 x2 y2 = none := by
  simp only [pointToLineDistanceSq, sqDist] at h ⊢
  rw [if_pos h]

/-- Witness for C4: the zero-length segment (0,0)-(0,0) satisfies the
degeneracy bound and the distance query returns the Infinity marker. -/
theorem C4_witness :
    sqDist 0 0 0 0 < 1 / 1000000000000 ∧ pointToLineDistanceSq 1 2 0 0 0 0 = none :=
  ⟨by decide, C4_pointToLineDistance_degenerate 1 2 0 0 0 0 (by decide)⟩

/-- C10.  isSegmentContained returns false whenever the outer segment's
squared length is below 1e-6, for every inner segment and epsilon, so the
projection's division by the squared length is never reached on a
near-zero denominator. -/
theorem C10_contained_degenerate_outer (inner outer : Seg) (epsilon : ℚ)
    (h : sqDist outer.x1 outer.y1 outer.x2 outer.y2 < 1 / 1000000) :
    isSegmentContained inner outer epsilon = false := by
  simp only [isSegmentContained, sqDist] at h ⊢
  rw [if_pos h]

/-- Witness for C10: a degenerate outer wall of squared length 4e-7 never
contains the segment (0,0)-(1,0). -/
theorem C10_witness :
    sqDist 0 0 (1/5000) (1/5000) < 1 / 1000000 ∧
    isSegmentContained ⟨0, 0, 1, 0⟩ ⟨0, 0, 1/5000, 1/5000⟩ (1/100) = false :=
  ⟨by decide, C10_contained_degenerate_outer ⟨0, 0, 1, 0⟩ ⟨0, 0, 1/5000, 1/5000⟩ (1/100) (by decide)⟩

/-! ### C6: the alignment override rule of getMoveSnapCorrection -/

/-- A fold whose step keeps the accumulator unchanged. -/
theorem foldl_keep {α β : Type} (l : List α) (f : β → α → β) (hf : ∀ b a, f b a = b) (b : β) :
    l.foldl f b = b := by
  induction l generalizing b with
  | nil => rfl
  | cons x xs ih => rw [List.foldl_cons, hf]; exact ih b

/-- With no unselected target the endpoint phase leaves the zero
correction in place. -/
theorem moveEndpointCorrection_nil (dx dy : ℚ) (selection : List Obj) (t : ℚ) :
    moveEndpointCorrection dx dy selection [] t = ⟨0, 0, none⟩ := by
  unfold moveEndpointCorrection
  exact foldl_keep selection _ (fun b a => rfl) _

/-- With no target objects the alignment correction is zero on both axes. -/
theorem getAlignmentCorrection_nil (sb : Option Box) (dx dy scale : ℚ) :
    getAlignmentCorrection sb dx dy [] scale = (0, 0) := by
  cases sb <;> simp [getAlignmentCorrection]

/-- Vertical wall x = 0 used as the alignment-override target. -/
def c6T : Obj := ⟨1, ObjType.wall, 0, 0, 0, 1000, 10, 250, "#888888"⟩

/-- Selected wall whose endpoint (10,500) endpoint-snaps onto c6T. -/
def c6A : Obj := ⟨2, ObjType.wall, 10, 500, 100, 500, 10, 250, "#888888"⟩

/-- Second selected wall, placed so the selection's bounding-box center
is exactly aligned with c6T (alignment delta exactly 0). -/
def c6B : Obj := ⟨3, ObjType.wall, -100, 300, -100, 400, 10, 250, "#888888"⟩

set_option maxRecDepth 100000 in
/-- C6 counterexample.  On the x axis the alignment correction is 0 (an
exact center alignment) while the endpoint correction is -10, so its
magnitude is strictly smaller; the claim then demands that the alignment
value replace the endpoint correction, but getMoveSnapCorrection keeps the
endpoint correction -10: the source additionally requires alignment.x !== 0
before overriding. -/
theorem C6_counterexample :
    |(getAlignmentCorrection (getSelectionBounds [c6A, c6B]) 0 0 [c6T] 1).1| <
      |(moveEndpointCorrection 0 0 [c6A, c6B] [c6T] (15 / 1)).cx| ∧
    (getMoveSnapCorrection 0 0 [c6A, c6B] [c6T, c6A, c6B] 1).1 =
      (moveEndpointCorrection 0 0 [c6A, c6B] [c6T] (15 / 1)).cx ∧
    (getMoveSnapCorrection 0 0 [c6A, c6B] [c6T, c6A, c6B] 1).1 ≠
      (getAlignmentCorrection (getSelectionBounds [c6A, c6B]) 0 0 [c6T] 1).1 := by
  decide

/-- C6 (amended).  Per axis, and independently, the alignment value
replaces the endpoint correction exactly when it is nonzero on that axis
and either the endpoint correction is zero on that axis or the alignment
magnitude is strictly smaller; otherwise the endpoint correction is kept.
A zero alignment value never overrides. -/
theorem C6_alignment_override (dx dy scale : ℚ) (selection objects : List Obj) :
    getMoveSnapCorrection dx dy selection objects scale =
      (let unselected := objects.filter fun obj => !(selection.any fun s => s.id == obj.id)
       let ep := moveEndpointCorrection dx dy selection unselected (15 / scale)
       let al := getAlignmentCorrection (getSelectionBounds selection) dx dy unselected scale
       (if al.1 ≠ 0 ∧ (ep.cx = 0 ∨ |al.1| < |ep.cx|) then al.1 else ep.cx,
        if al.2 ≠ 0 ∧ (ep.cy = 0 ∨ |al.2| < |ep.cy|) then al.2 else ep.cy)) := by
  unfold getMoveSnapCorrection
  cases hu : (objects.filter fun obj => !(selection.any fun s => s.id == obj.id)) with
  | nil => simp [hu, moveEndpointCorrection_nil, getAlignmentCorrection_nil]
  | cons o rest => simp only [hu, List.isEmpty_cons, Bool.false_eq_true, if_false]

/-! ### C5: the snap threshold of snapToObjects -/

/-- Invariant of the snapToObjects fold before the minimal candidate has
been reached: either nothing has snapped yet, or the slot holds a
candidate no closer than the minimal one, with coordinates (ex, ey)
whenever the distances tie. -/
def GoodAcc (ex ey dE : ℚ) (acc : SnapAcc) : Prop :=
  acc.bestSq = none ∨ ∃ d, acc.bestSq = some d ∧ dE ≤ d ∧ (d = dE → acc.sx = ex ∧ acc.sy = ey)

/-- Invariant after the minimal candidate has been reached: the slot holds
exactly the minimal squared distance and the point (ex, ey). -/
def DoneAcc (ex ey dE : ℚ) (acc : SnapAcc) : Prop :=
  acc.bestSq = some dE ∧ acc.sx = ex ∧ acc.sy = ey

/-- A candidate no closer than dE, whose coordinates are (ex, ey) in case
of a tie, preserves GoodAcc. -/
theorem considerStep_good {t ex ey dE : ℚ} {acc : SnapAcc} {c : ℚ × ℚ × ℚ}
    (hacc : GoodAcc ex ey dE acc) (hc1 : dE ≤ c.2.2)
    (hc2 : c.2.2 = dE → c.1 = ex ∧ c.2.1 = ey) :
    GoodAcc ex ey dE (considerStep t acc c) := by
  unfold considerStep
  by_cases h : snapLt c.2.2 t acc.bestSq = true
  · rw [if_pos h]
    exact Or.inr ⟨c.2.2, rfl, hc1, fun hd => hc2 hd⟩
  · rw [if_neg h]
    exact hacc

/-- A candidate no closer than dE cannot displace a DoneAcc slot (the
source compares with strict <). -/
theorem considerStep_done {t ex ey dE : ℚ} {acc : SnapAcc} {c : ℚ × ℚ × ℚ}
    (hacc : DoneAcc ex ey dE acc) (hc1 : dE ≤ c.2.2) :
    DoneAcc ex ey dE (considerStep t acc c) := by
  obtain ⟨hb, hx, hy⟩ := hacc
  unfold considerStep
  rw [hb]
  have hlt : snapLt c.2.2 t (some dE) = false := by
    simp [snapLt, not_lt.mpr hc1]
  rw [hlt]
  simp only [Bool.false_eq_true, if_false]
  exact ⟨hb, hx, hy⟩

/-- Processing the minimal candidate itself from a GoodAcc state yields a
DoneAcc state, provided it beats the 15/scale threshold. -/
theorem considerStep_sets {t ex ey dE : ℚ} {acc : SnapAcc}
    (hacc : GoodAcc ex ey dE acc) (ht : sqrtLt dE t = true) :
    DoneAcc ex ey dE (considerStep t acc (ex, ey, dE)) := by
  unfold considerStep
  rcases hacc with hb | ⟨d, hb, hle, himp⟩
  · rw [hb]
    have : snapLt dE t none = true := ht
    rw [this]
    exact ⟨rfl, rfl, rfl⟩
  · rw [hb]
    by_cases hlt : dE < d
    · have : snapLt dE t (some d) = true := by simp [snapLt, hlt]
      rw [this]
      exact ⟨rfl, rfl, rfl⟩
    · have hde : d = dE := le_antisymm (not_lt.mp hlt) hle
      have : snapLt dE t (some d) = false := by simp [snapLt, not_lt.mp hlt]
      rw [this]
      simp only [Bool.false_eq_true, if_false]
      obtain ⟨hx, hy⟩ := himp hde
      exact ⟨hde ▸ hb, hx, hy⟩

/-- Folding candidates that are all at least dE away, with coordinates
(ex, ey) on ties, preserves GoodAcc. -/
theorem foldl_considerStep_good {t ex ey dE : ℚ} (l : List (ℚ × ℚ × ℚ)) (acc : SnapAcc)
    (hacc : GoodAcc ex ey dE acc)
    (hl : ∀ c ∈ l, dE ≤ c.2.2 ∧ (c.2.2 = dE → c.1 = ex ∧ c.2.1 = ey)) :
    GoodAcc ex ey dE (l.foldl (considerStep t) acc) := by
  induction l generalizing acc with
  | nil => exact hacc
  | cons c rest ih =>
    exact ih _
      (considerStep_good hacc (hl c (List.mem_cons_self c rest)).1
        (hl c (List.mem_cons_self c rest)).2)
      (fun c' hc' => hl c' (List.mem_cons_of_mem c hc'))

/-- Folding candidates that are all at least dE away preserves DoneAcc. -/
theorem foldl_considerStep_done {t ex ey dE : ℚ} (l : List (ℚ × ℚ × ℚ)) (acc : SnapAcc)
    (hacc : DoneAcc ex ey dE acc)
    (hl : ∀ c ∈ l, dE ≤ c.2.2) :
    DoneAcc ex ey dE (l.foldl (considerStep t) acc) := by
  induction l generalizing acc with
  | nil => exact hacc
  | cons c rest ih =>
    exact ih _ (considerStep_done hacc (hl c (List.mem_cons_self c rest)))
      (fun c' hc' => hl c' (List.mem_cons_of_mem c hc'))

/-- If every candidate fails the threshold comparison, the fold never
leaves the initial accumulator. -/
theorem foldl_considerStep_none {t : ℚ} (l : List (ℚ × ℚ × ℚ)) (x y : ℚ)
    (h : ∀ c ∈ l, sqrtLt c.2.2 t = false) :
    l.foldl (considerStep t) ⟨x, y, none⟩ = ⟨x, y, none⟩ := by
  induction l with
  | nil => rfl
  | cons c rest ih =>
    rw [List.foldl_cons]
    have hc : considerStep t ⟨x, y, none⟩ c = ⟨x, y, none⟩ := by
      unfold considerStep
      have : snapLt c.2.2 t none = false := h c (List.mem_cons_self c rest)
      rw [this]
      simp
    rw [hc]
    exact ih (fun c' hc' => h c' (List.mem_cons_of_mem c hc'))

/-- Folding a list containing the minimal candidate, all members at least
dE away with coordinates (ex, ey) on ties, ends in a DoneAcc state. -/
theorem foldl_considerStep_min {t ex ey dE : ℚ} (l : List (ℚ × ℚ × ℚ)) (acc : SnapAcc)
    (hacc : GoodAcc ex ey dE acc)
    (hmem : (ex, ey, dE) ∈ l)
    (ht : sqrtLt dE t = true)
    (hl : ∀ c ∈ l, dE ≤ c.2.2 ∧ (c.2.2 = dE → c.1 = ex ∧ c.2.1 = ey)) :
    DoneAcc ex ey dE (l.foldl (considerStep t) acc) := by
  induction l generalizing acc with
  | nil => cases hmem
  | cons c rest ih =>
    rcases List.mem_cons.mp hmem with heq | hmem'
    · rw [List.foldl_cons, ← heq]
      exact foldl_considerStep_done rest _ (considerStep_sets hacc ht)
        (fun c' hc' => (hl c' (List.mem_cons_of_mem c hc')).1)
    · rw [List.foldl_cons]
      exact ih _
        (considerStep_good hacc (hl c (List.mem_cons_self c rest)).1
          (hl c (List.mem_cons_self c rest)).2)
        hmem' (fun c' hc' => hl c' (List.mem_cons_of_mem c hc'))

/-- snapToObjects is the considerStep fold over the flattened candidate
list of the non-excluded objects. -/
theorem snapToObjects_eq_foldl (x y : ℚ) (objects : List Obj) (scale : ℚ) (excl : List Obj) :
    snapToObjects x y objects scale excl =
      (((snapCandidates x y objects excl).foldl (considerStep (15 / scale)) ⟨x, y, none⟩).sx,
       ((snapCandidates x y objects excl).foldl (considerStep (15 / scale)) ⟨x, y, none⟩).sy) := by
  unfold snapToObjects snapCandidates
  have key : ∀ (objs : List Obj) (acc : SnapAcc),
      objs.foldl
        (fun acc obj =>
          if excl.any (fun e => e.id == obj.id) then acc
          else (candidatesOf x y obj).foldl (considerStep (15 / scale)) acc)
        acc
      = ((objs.filter fun obj => !(excl.any fun e => e.id == obj.id)).flatMap
          (candidatesOf x y)).foldl (considerStep (15 / scale)) acc := by
    intro objs
    induction objs with
    | nil => intro acc; rfl
    | cons o rest ih =>
      intro acc
      by_cases h : excl.any (fun e => e.id == o.id)
      · have hp : ¬ ((!excl.any fun e => e.id == o.id) = true) := by simp [h]
        rw [List.foldl_cons, if_pos h, ih, List.filter_cons, if_neg hp]
      · have hb : (excl.any fun e => e.id == o.id) = false := Bool.eq_false_iff.mpr h
        have hp : (!excl.any fun e => e.id == o.id) = true := by simp [hb]
        rw [List.foldl_cons, if_neg h, ih, List.filter_cons, if_pos hp, List.flatMap_cons,
          List.foldl_append]
  simp only [key]

/-- An endpoint of a non-excluded object is among the snap candidates. -/
theorem endpoint_mem_snapCandidates {x y : ℚ} {objects excl : List Obj} {obj : Obj}
    (hobj : obj ∈ objects) (hexcl : excl.any (fun e => e.id == obj.id) = false)
    {ex ey : ℚ} (hend : (ex, ey) = (obj.x1, obj.y1) ∨ (ex, ey) = (obj.x2, obj.y2)) :
    (ex, ey, sqDist x y ex ey) ∈ snapCandidates x y objects excl := by
  unfold snapCandidates
  apply List.mem_flatMap.mpr
  refine ⟨obj, List.mem_filter.mpr ⟨hobj, by simp [hexcl]⟩, ?_⟩
  rcases hend with h | h <;>
    (obtain ⟨h1, h2⟩ := Prod.mk.injEq .. ▸ h) <;>
    subst h1 <;> subst h2 <;> simp [candidatesOf]

/-- C5.  The 15/scale snap threshold of snapToObjects is strict: when every
candidate (endpoint or closest segment point of any non-excluded object)
is at distance at least 15/scale, the point is returned unchanged; and
when an endpoint of a non-excluded object is strictly under the threshold
and is the minimum-distance candidate (every candidate tying its distance
is that same point), snapToObjects returns that endpoint. -/
theorem C5_snap_threshold (x y : ℚ) (objects : List Obj) (scale : ℚ) (excl : List Obj) :
    ((∀ c ∈ snapCandidates x y objects excl, sqrtLt c.2.2 (15 / scale) = false) →
      snapToObjects x y objects scale excl = (x, y)) ∧
    (∀ obj ∈ objects, ∀ ex ey : ℚ,
      excl.any (fun e => e.id == obj.id) = false →
      ((ex, ey) = (obj.x1, obj.y1) ∨ (ex, ey) = (obj.x2, obj.y2)) →
      sqrtLt (sqDist x y ex ey) (15 / scale) = true →
      (∀ c ∈ snapCandidates x y objects excl, sqDist x y ex ey ≤ c.2.2) →
      (∀ c ∈ snapCandidates x y objects excl,
        c.2.2 = sqDist x y ex ey → c.1 = ex ∧ c.2.1 = ey) →
      snapToObjects x y objects scale excl = (ex, ey)) := by
  constructor
  · intro hnone
    rw [snapToObjects_eq_foldl, foldl_considerStep_none _ x y hnone]
  · intro obj hobj ex ey hexcl hend ht hmin heq
    have hmem := endpoint_mem_snapCandidates (x := x) (y := y) hobj hexcl hend
    have hdone := foldl_considerStep_min (t := 15 / scale)
      (snapCandidates x y objects excl) ⟨x, y, none⟩ (Or.inl rfl) hmem ht
      (fun c hc => ⟨hmin c hc, heq c hc⟩)
    rw [snapToObjects_eq_foldl]
    rw [hdone.2.1, hdone.2.2]

/-- A far wall whose candidates are all at distance at least 100. -/
def c5far : Obj := ⟨1, ObjType.wall, 100, 0, 200, 0, 10, 250, "#888888"⟩

/-- A wall whose endpoint (10,5) is the unique nearest candidate to the
origin, under the threshold 15 at scale 1. -/
def c5near : Obj := ⟨1, ObjType.wall, 10, 5, 200, 5, 10, 250, "#888888"⟩

/-- Witness for C5: with only the far wall the origin is returned
unchanged; with the near wall the origin snaps to its endpoint (10,5). -/
theorem C5_witness :
    snapToObjects 0 0 [c5far] 1 [] = (0, 0) ∧ snapToObjects 0 0 [c5near] 1 [] = (10, 5) := by
  constructor
  · exact (C5_snap_threshold 0 0 [c5far] 1 []).1 (by decide)
  · exact (C5_snap_threshold 0 0 [c5near] 1 []).2 c5near (by decide) 10 5 (by decide)
      (Or.inl (by decide)) (by decide) (by decide) (by decide)

/-! ### The merge loop: termination, idempotence, frame and selection -/

/-- A pair found by the nested pair enumeration splits its list into three
parts around the two components, in order. -/
theorem wallPairs_split {a b : Obj} :
    ∀ {l : List Obj}, (a, b) ∈ wallPairs l → ∃ l1 l2 l3, l = l1 ++ a :: (l2 ++ b :: l3) := by
  intro l
  induction l with
  | nil => intro h; cases h
  | cons w ws ih =>
    intro h
    rw [wallPairs] at h
    rcases List.mem_append.mp h with h1 | h2
    · obtain ⟨w2, hw2, heq⟩ := List.mem_map.mp h1
      have ha : w = a := congrArg Prod.fst heq
      have hb : w2 = b := congrArg Prod.snd heq
      obtain ⟨s, t, hst⟩ := List.append_of_mem (hb ▸ hw2)
      exact ⟨[], s, t, by rw [hst, ha]; rfl⟩
    · obtain ⟨l1, l2, l3, hl⟩ := ih h2
      exact ⟨w :: l1, l2, l3, by rw [hl]; rfl⟩

/-- A pair found by the nested pair enumeration is an ordered sublist. -/
theorem wallPairs_sublist {a b : Obj} {l : List Obj} (h : (a, b) ∈ wallPairs l) :
    [a, b].Sublist l := by
  obtain ⟨l1, l2, l3, hl⟩ := wallPairs_split h
  rw [hl]
  have hb : [b].Sublist (l2 ++ b :: l3) :=
    List.singleton_sublist.mpr (List.mem_append_right l2 (List.mem_cons_self b l3))
  exact (hb.cons₂ a).trans (List.sublist_append_right l1 _)

/-- Unpacking a successful scan: the two walls occur in order in the
collection, both have wall type, their pair occurs in the pair enumeration
of the wall sublist, and the pair passed every merge guard. -/
theorem findMerge_spec {objects : List Obj} {scale : ℚ} {w1 w2 : Obj} {span : Seg}
    (h : findMerge objects scale = some (w1, w2, span)) :
    (w1, w2) ∈ wallPairs (objects.filter isWall) ∧
    [w1, w2].Sublist objects ∧ w1.type = ObjType.wall ∧ w2.type = ObjType.wall ∧
    mergeCandidate objects scale w1 w2 = some span := by
  unfold findMerge at h
  obtain ⟨p, hp, hf⟩ := List.exists_of_findSome?_eq_some h
  obtain ⟨s, hs, heq⟩ := Option.map_eq_some'.mp hf
  have h1 : p.1 = w1 := congrArg (fun x => x.1) heq
  have h2 : p.2 = w2 := congrArg (fun x => x.2.1) heq
  have h3 : s = span := congrArg (fun x => x.2.2) heq
  have hp' : (w1, w2) ∈ wallPairs (objects.filter isWall) := by
    rw [← h1, ← h2]; exact hp
  have hsubW : [w1, w2].Sublist (objects.filter isWall) := wallPairs_sublist hp' 
  have hsub : [w1, w2].Sublist objects := hsubW.trans (List.filter_sublist objects)
  have hw1 : w1 ∈ objects.filter isWall := hsubW.subset (List.mem_cons_self w1 [w2])
  have hw2 : w2 ∈ objects.filter isWall :=
    hsubW.subset (List.mem_cons_of_mem w1 (List.mem_cons_self w2 []))
  refine ⟨hp', hsub, ?_, ?_, ?_⟩
  · exact of_decide_eq_true (List.mem_filter.mp hw1).2
  · exact of_decide_eq_true (List.mem_filter.mp hw2).2
  · rw [← h1, ← h2, hs, h3]

/-- Removing the two paired walls and appending one merged wall strictly
shrinks the collection. -/
theorem applyMerge_length_lt {st : AppState} {w1 w2 : Obj} {span : Seg} {nid : Nat}
    (hsub : [w1, w2].Sublist st.objects) :
    (applyMerge st w1 w2 span nid).objects.length < st.objects.length := by
  have hcount : 2 ≤ st.objects.countP (fun (o : Obj) => o.id == w1.id || o.id == w2.id) := by
    have hle := hsub.countP_le (fun (o : Obj) => o.id == w1.id || o.id == w2.id)
    simp [List.countP_cons] at hle
    omega
  have hsplit := List.length_eq_length_filter_add (l := st.objects)
    (fun (o : Obj) => o.id == w1.id || o.id == w2.id)
  rw [List.countP_eq_length_filter] at hcount
  show ((st.objects.filter fun (o : Obj) => !(o.id == w1.id || o.id == w2.id)) ++ [_]).length < _
  rw [List.length_append]
  simp only [List.length_singleton]
  omega

/-- With fuel exceeding the collection size, the merge loop reaches a state
on which a full scan finds no merge. -/
theorem mergeLoop_total :
    ∀ (fuel : Nat) (st : AppState), st.objects.length < fuel →
      ∃ st', mergeLoop fuel st = some st' ∧ findMerge st'.objects st'.scale = none := by
  intro fuel
  induction fuel with
  | zero => intro st h; omega
  | succ f ih =>
    intro st h
    cases hm : findMerge st.objects st.scale with
    | none => exact ⟨st, by rw [mergeLoop, hm], hm⟩
    | some t =>
      obtain ⟨w1, w2, span⟩ := t
      have hsub := (findMerge_spec hm).2.1
      have hlt := @applyMerge_length_lt st w1 w2 span (freshId st.objects) hsub
      obtain ⟨st', h1, h2⟩ := ih (applyMerge st w1 w2 span (freshId st.objects)) (by omega)
      exact ⟨st', by rw [mergeLoop, hm]; exact h1, h2⟩

/-- checkAndMergeWalls runs the loop to its fixed point: the loop returns
some final state, checkAndMergeWalls equals it, and a further scan of it
finds no merge. -/
theorem checkAndMergeWalls_spec (st : AppState) :
    ∃ st', mergeLoop (st.objects.length + 1) st = some st' ∧ checkAndMergeWalls st = st' ∧
      findMerge st'.objects st'.scale = none := by
  obtain ⟨st', h1, h2⟩ := mergeLoop_total (st.objects.length + 1) st (by omega)
  exact ⟨st', h1, by rw [checkAndMergeWalls, h1]; rfl, h2⟩

/-- C7.  checkAndMergeWalls is idempotent: a collection already merged to
its fixed point (a full scan performs zero merges) is left unchanged, both
its objects and its selection, by a second run. -/
theorem C7_merge_idempotent (st : AppState) :
    checkAndMergeWalls (checkAndMergeWalls st) = checkAndMergeWalls st := by
  obtain ⟨st', h1, h2, h3⟩ := checkAndMergeWalls_spec st
  rw [h2]
  rw [checkAndMergeWalls, mergeLoop, h3]
  rfl

/-- The number of wall objects in a collection. -/
def wallCount (objects : List Obj) : Nat := (objects.filter isWall).length

/-- The running maximum in freshId dominates its initial value. -/
theorem le_foldl_max : ∀ (l : List Obj) (m : Nat), m ≤ l.foldl (fun acc o => max acc o.id) m := by
  intro l
  induction l with
  | nil => intro m; exact Nat.le_refl m
  | cons o rest ih => intro m; exact le_trans (Nat.le_max_left m o.id) (ih (max m o.id))

/-- The running maximum in freshId dominates every member's id. -/
theorem mem_le_foldl_max : ∀ (l : List Obj) (m : Nat) (o : Obj), o ∈ l →
    o.id ≤ l.foldl (fun acc o => max acc o.id) m := by
  intro l
  induction l with
  | nil => intro m o h; cases h
  | cons a rest ih =>
    intro m o h
    rcases List.mem_cons.mp h with rfl | h'
    · exact le_trans (Nat.le_max_right m o.id) (le_foldl_max rest (max m o.id))
    · exact ih (max m a.id) o h'

/-- Every member's id is strictly below the fresh id. -/
theorem lt_freshId {objects : List Obj} {o : Obj} (h : o ∈ objects) :
    o.id < freshId objects := by
  unfold freshId
  have := mem_le_foldl_max objects 0 o h
  omega

/-- Distinct ids across a three-way decomposition around two elements. -/
theorem decomp_id_facts {l1 l2 l3 : List Obj} {w1 w2 : Obj}
    (h : ((l1 ++ w1 :: (l2 ++ w2 :: l3)).map Obj.id).Nodup) :
    (∀ o ∈ l1, o.id ≠ w1.id ∧ o.id ≠ w2.id) ∧
    (∀ o ∈ l2, o.id ≠ w1.id ∧ o.id ≠ w2.id) ∧
    (∀ o ∈ l3, o.id ≠ w1.id ∧ o.id ≠ w2.id) := by
  have hp : (l1 ++ w1 :: (l2 ++ w2 :: l3)).Pairwise (fun a b => a.id ≠ b.id) :=
    List.pairwise_map.mp h
  rw [List.pairwise_append] at hp
  obtain ⟨-, hp2, hcross⟩ := hp
  rw [List.pairwise_cons] at hp2
  obtain ⟨hw1all, hp3⟩ := hp2
  rw [List.pairwise_append] at hp3
  obtain ⟨-, hp4, hcross2⟩ := hp3
  rw [List.pairwise_cons] at hp4
  obtain ⟨hw2all, -⟩ := hp4
  refine ⟨fun o ho => ⟨?_, ?_⟩, fun o ho => ⟨?_, ?_⟩, fun o ho => ⟨?_, ?_⟩⟩
  · exact hcross o ho w1 (List.mem_cons_self w1 _)
  · exact hcross o ho w2
      (List.mem_cons_of_mem w1 (List.mem_append_right l2 (List.mem_cons_self w2 l3)))
  · exact (hw1all o (List.mem_append_left _ ho)).symm
  · exact hcross2 o ho w2 (List.mem_cons_self w2 l3)
  · exact (hw1all o (List.mem_append_right l2 (List.mem_cons_of_mem w2 ho))).symm
  · exact (hw2all o ho).symm

/-- Filtering a decomposed list with a predicate that keeps all side parts
and drops the two middle elements. -/
theorem filter_decomp (g : Obj → Bool) (l1 l2 l3 : List Obj) (w1 w2 : Obj)
    (h1 : ∀ o ∈ l1, g o = true) (h2 : ∀ o ∈ l2, g o = true) (h3 : ∀ o ∈ l3, g o = true)
    (hw1 : g w1 = false) (hw2 : g w2 = false) :
    (l1 ++ w1 :: (l2 ++ w2 :: l3)).filter g = l1 ++ (l2 ++ l3) := by
  rw [List.filter_append, List.filter_cons, List.filter_append, List.filter_cons]
  rw [List.filter_eq_self.mpr h1, List.filter_eq_self.mpr h2, List.filter_eq_self.mpr h3]
  rw [hw1, hw2]
  simp

/-- The removal predicate of applyMerge holds on every object whose id
differs from both removed walls. -/
theorem removal_pred_true {o w1 w2 : Obj} (h1 : o.id ≠ w1.id) (h2 : o.id ≠ w2.id) :
    (!(o.id == w1.id || o.id == w2.id)) = true := by
  simp [h1, h2]

/-- A merge removes exactly the two paired walls and adds one merged wall:
the wall count drops by exactly one (given distinct object identities). -/
theorem applyMerge_wallCount {st : AppState} {w1 w2 : Obj} {span : Seg}
    (hnodup : (st.objects.map Obj.id).Nodup)
    (hm : findMerge st.objects st.scale = some (w1, w2, span)) :
    wallCount (applyMerge st w1 w2 span (freshId st.objects)).objects + 1
      = wallCount st.objects := by
  obtain ⟨hp, hsub, hw1t, hw2t, -⟩ := findMerge_spec hm
  obtain ⟨l1, l2, l3, hW⟩ := wallPairs_split hp
  have hndW : ((st.objects.filter isWall).map Obj.id).Nodup :=
    hnodup.sublist ((List.filter_sublist st.objects).map Obj.id)
  rw [hW] at hndW
  obtain ⟨hf1, hf2, hf3⟩ := decomp_id_facts hndW
  have hcomm : (st.objects.filter fun (o : Obj) =>
        !(o.id == w1.id || o.id == w2.id)).filter isWall
      = (st.objects.filter isWall).filter
          (fun (o : Obj) => !(o.id == w1.id || o.id == w2.id)) := by
    rw [List.filter_filter, List.filter_filter]
    exact List.filter_congr (fun o _ => Bool.and_comm _ _)
  have hkey : (st.objects.filter fun (o : Obj) =>
        !(o.id == w1.id || o.id == w2.id)).filter isWall = l1 ++ (l2 ++ l3) := by
    rw [hcomm, hW]
    refine filter_decomp _ l1 l2 l3 w1 w2
      (fun o ho => removal_pred_true (hf1 o ho).1 (hf1 o ho).2)
      (fun o ho => removal_pred_true (hf2 o ho).1 (hf2 o ho).2)
      (fun o ho => removal_pred_true (hf3 o ho).1 (hf3 o ho).2) (by simp) (by simp)
  have hdef : (applyMerge st w1 w2 span (freshId st.objects)).objects
      = (st.objects.filter fun (o : Obj) => !(o.id == w1.id || o.id == w2.id)) ++
        [mergedObjOf w1 span (freshId st.objects)] := rfl
  have hmw : isWall (mergedObjOf w1 span (freshId st.objects)) = true := by
    simp [isWall, mergedObjOf, hw1t]
  rw [wallCount, wallCount, hdef, List.filter_append, hkey, hW]
  rw [List.filter_cons, hmw]
  simp [List.length_append]
  omega

/-- C3.  The merge pass terminates: the loop reaches, within objects.length
scans, a state on which a full scan performs no merge, and each single
merge removes the two paired walls and inserts one merged wall, strictly
decreasing both the wall count (by exactly one, given distinct object
identities) and the collection size. -/
theorem C3_merge_termination (st : AppState)
    (hnodup : (st.objects.map Obj.id).Nodup) :
    (∃ st', mergeLoop (st.objects.length + 1) st = some st' ∧
        findMerge st'.objects st'.scale = none) ∧
    (∀ w1 w2 span, findMerge st.objects st.scale = some (w1, w2, span) →
        wallCount (applyMerge st w1 w2 span (freshId st.objects)).objects + 1
            = wallCount st.objects ∧
        (applyMerge st w1 w2 span (freshId st.objects)).objects.length
            < st.objects.length) :=
  ⟨mergeLoop_total _ st (by omega),
   fun _ _ _ hm =>
     ⟨applyMerge_wallCount hnodup hm, applyMerge_length_lt (findMerge_spec hm).2.1⟩⟩

/-- Witness for C3: merging the concrete two-wall scenario drops the wall
count from 2 to 1 and the collection size from 2 to below 2. -/
theorem C3_witness :
    wallCount (applyMerge ⟨[c1w1, c1w2], [], 1⟩ c1w1 c1w2 ⟨0, 0, 100, 0⟩
        (freshId [c1w1, c1w2])).objects + 1 = wallCount [c1w1, c1w2] ∧
    (applyMerge ⟨[c1w1, c1w2], [], 1⟩ c1w1 c1w2 ⟨0, 0, 100, 0⟩
        (freshId [c1w1, c1w2])).objects.length < 2 :=
  (C3_merge_termination ⟨[c1w1, c1w2], [], 1⟩ (by decide)).2 c1w1 c1w2 ⟨0, 0, 100, 0⟩
    (by decide)

/-- A merge step keeps object identities pairwise distinct: the two removed
walls take their ids away and the inserted wall receives a fresh one. -/
theorem applyMerge_nodup {st : AppState} {w1 w2 : Obj} {span : Seg}
    (hnodup : (st.objects.map Obj.id).Nodup) :
    ((applyMerge st w1 w2 span (freshId st.objects)).objects.map Obj.id).Nodup := by
  have hobj : (applyMerge st w1 w2 span (freshId st.objects)).objects
      = (st.objects.filter fun (o : Obj) => !(o.id == w1.id || o.id == w2.id)) ++
        [mergedObjOf w1 span (freshId st.objects)] := rfl
  rw [hobj, List.map_append, List.nodup_append]
  refine ⟨hnodup.sublist ((List.filter_sublist st.objects).map Obj.id), by simp, ?_⟩
  intro a ha hb
  obtain ⟨o, ho, rfl⟩ := List.mem_map.mp ha
  have hb' : o.id = freshId st.objects := by simpa [mergedObjOf] using hb
  have hom : o ∈ st.objects := (List.mem_filter.mp ho).1
  exact absurd (hb' ▸ lt_freshId hom) (lt_irrefl _)

/-- A merge step removes and modifies only walls: the non-wall sublist is
untouched (given distinct object identities). -/
theorem applyMerge_nonwall {st : AppState} {w1 w2 : Obj} {span : Seg}
    (hnodup : (st.objects.map Obj.id).Nodup)
    (hm : findMerge st.objects st.scale = some (w1, w2, span)) :
    (applyMerge st w1 w2 span (freshId st.objects)).objects.filter (fun o => !(isWall o))
      = st.objects.filter (fun o => !(isWall o)) := by
  obtain ⟨-, hsub, hw1t, hw2t, -⟩ := findMerge_spec hm
  have hw1m : w1 ∈ st.objects := hsub.subset (List.mem_cons_self _ _)
  have hw2m : w2 ∈ st.objects :=
    hsub.subset (List.mem_cons_of_mem _ (List.mem_cons_self _ _))
  have hinj := List.inj_on_of_nodup_map hnodup
  have hdef : (applyMerge st w1 w2 span (freshId st.objects)).objects
      = (st.objects.filter fun (o : Obj) => !(o.id == w1.id || o.id == w2.id)) ++
        [mergedObjOf w1 span (freshId st.objects)] := rfl
  rw [hdef, List.filter_append, List.filter_filter]
  have hmw : (!(isWall (mergedObjOf w1 span (freshId st.objects)))) = false := by
    simp [isWall, mergedObjOf, hw1t]
  rw [List.filter_cons, hmw]
  simp only [Bool.false_eq_true, if_false, List.filter_nil, List.append_nil]
  apply List.filter_congr
  intro o ho
  cases hiw : isWall o with
  | true => rfl
  | false =>
    have h1 : o.id ≠ w1.id := fun he =>
      by have := hinj ho hw1m he; rw [this, isWall, hw1t] at hiw; simp at hiw
    have h2 : o.id ≠ w2.id := fun he =>
      by have := hinj ho hw2m he; rw [this, isWall, hw2t] at hiw; simp at hiw
    rw [removal_pred_true h1 h2, Bool.and_true]

/-- Through the whole merge loop the non-wall objects are untouched, and
identities stay pairwise distinct. -/
theorem mergeLoop_invariant :
    ∀ (fuel : Nat) (st st' : AppState), mergeLoop fuel st = some st' →
      (st.objects.map Obj.id).Nodup →
      st'.objects.filter (fun o => !(isWall o)) = st.objects.filter (fun o => !(isWall o)) := by
  intro fuel
  induction fuel with
  | zero => intro st st' h; cases h
  | succ f ih =>
    intro st st' h hnd
    rw [mergeLoop] at h
    cases hm : findMerge st.objects st.scale with
    | none => rw [hm] at h; cases h; rfl
    | some t =>
      obtain ⟨w1, w2, span⟩ := t
      rw [hm] at h
      have hstep := applyMerge_nonwall hnd hm
      have hnd' := @applyMerge_nodup st w1 w2 span hnd
      rw [ih _ _ h hnd', hstep]

/-- The split-pass update map and remainder list, named for reuse in the
frame statements (definitionally the two components of
checkAndSplitObjects). -/
theorem checkAndSplitObjects_def (activeObj : Obj) (objects : List Obj) :
    (checkAndSplitObjects activeObj objects).1
      = (if objects.any (splitQualifies activeObj) then
          (objects.map fun o =>
            if splitQualifies activeObj o then splitTruncate activeObj o else o)
          ++ mapWithIds (splitRemainder activeObj) (freshId objects)
              (objects.filter (splitQualifies activeObj))
        else (objects.map fun o =>
          if splitQualifies activeObj o then splitTruncate activeObj o else o)) := rfl

/-- An object qualifying for a split is a wall. -/
theorem splitQualifies_isWall {activeObj o : Obj}
    (h : splitQualifies activeObj o = true) : isWall o = true := by
  unfold splitQualifies at h
  simp only [Bool.and_eq_true] at h
  exact h.1.1.2

/-- The split pass truncates only walls in place: the non-wall sublist of
the updated collection is unchanged. -/
theorem split_map_nonwall (activeObj : Obj) (objects : List Obj) :
    (objects.map fun o =>
        if splitQualifies activeObj o then splitTruncate activeObj o else o).filter
      (fun o => !(isWall o))
      = objects.filter (fun o => !(isWall o)) := by
  induction objects with
  | nil => rfl
  | cons o rest ih =>
    rw [List.map_cons, List.filter_cons, List.filter_cons, ih]
    by_cases hq : splitQualifies activeObj o = true
    · have hw : isWall o = true := splitQualifies_isWall hq
      have hw' : isWall (splitTruncate activeObj o) = true := hw
      rw [if_pos hq]
      rw [show (!(isWall (splitTruncate activeObj o))) = false by rw [hw']; rfl]
      rw [show (!(isWall o)) = false by rw [hw]; rfl]
      simp only [Bool.false_eq_true, if_false]
    · rw [if_neg hq]

/-- Every split remainder is a wall (it inherits its type from the wall it
was cut from), so the remainders add nothing to the non-wall sublist. -/
theorem split_remainders_nonwall (activeObj : Obj) :
    ∀ (n : Nat) (ql : List Obj), (∀ o ∈ ql, isWall o = true) →
      (mapWithIds (splitRemainder activeObj) n ql).filter (fun o => !(isWall o)) = [] := by
  intro n ql
  induction ql generalizing n with
  | nil => intro _; rfl
  | cons o rest ih =>
    intro hql
    rw [mapWithIds, List.filter_cons]
    have hw : isWall (splitRemainder activeObj o n) = true := hql o (List.mem_cons_self o rest)
    rw [show (!(isWall (splitRemainder activeObj o n))) = false by rw [hw]; rfl]
    simp only [Bool.false_eq_true, if_false]
    exact ih (n + 1) (fun o' ho' => hql o' (List.mem_cons_of_mem o ho'))

/-- The split pass never touches non-wall objects. -/
theorem checkAndSplitObjects_nonwall (activeObj : Obj) (objects : List Obj) :
    (checkAndSplitObjects activeObj objects).1.filter (fun o => !(isWall o))
      = objects.filter (fun o => !(isWall o)) := by
  rw [checkAndSplitObjects_def]
  by_cases ha : objects.any (splitQualifies activeObj) = true
  · rw [if_pos ha, List.filter_append, split_map_nonwall,
      split_remainders_nonwall activeObj _ _
        (fun o ho => splitQualifies_isWall (List.mem_filter.mp ho).2),
      List.append_nil]
  · rw [if_neg ha, split_map_nonwall]

/-- The split pass never modifies the active object itself: any collection
member with the active id is still a member afterwards, unchanged. -/
theorem checkAndSplitObjects_active (activeObj : Obj) (objects : List Obj) :
    ∀ o ∈ objects, o.id = activeObj.id → o ∈ (checkAndSplitObjects activeObj objects).1 := by
  intro o ho hid
  have hq : splitQualifies activeObj o = false := by
    unfold splitQualifies
    simp [hid]
  have hmem : o ∈ (objects.map fun o' =>
      if splitQualifies activeObj o' then splitTruncate activeObj o' else o') :=
    List.mem_map.mpr ⟨o, ho, by rw [hq]; rfl⟩
  rw [checkAndSplitObjects_def]
  by_cases ha : objects.any (splitQualifies activeObj) = true
  · rw [if_pos ha]; exact List.mem_append_left _ hmem
  · rw [if_neg ha]; exact hmem

/-- C8.  Frame property of the topology pass: checkAndSplitObjects leaves
the non-wall objects (doors, windows, furniture) exactly as they were and
keeps any object carrying the active identity unchanged in the collection,
and checkAndMergeWalls leaves the non-wall objects exactly as they were
(given pairwise distinct object identities). -/
theorem C8_topology_frame (st : AppState) (activeObj : Obj)
    (hnodup : (st.objects.map Obj.id).Nodup) :
    (checkAndSplitObjects activeObj st.objects).1.filter (fun o => !(isWall o))
        = st.objects.filter (fun o => !(isWall o)) ∧
    (∀ o ∈ st.objects, o.id = activeObj.id →
        o ∈ (checkAndSplitObjects activeObj st.objects).1) ∧
    (checkAndMergeWalls st).objects.filter (fun o => !(isWall o))
        = st.objects.filter (fun o => !(isWall o)) := by
  refine ⟨checkAndSplitObjects_nonwall activeObj st.objects,
    checkAndSplitObjects_active activeObj st.objects, ?_⟩
  obtain ⟨st', h1, h2, -⟩ := checkAndMergeWalls_spec st
  rw [h2]
  exact mergeLoop_invariant _ _ _ h1 hnodup

/-- Witness for C8: on the concrete split scenario the door sublist is
unchanged by the split pass, the active door stays in the collection, and
the merge pass (which merges the two walls of the merge scenario around
their selection) also leaves the door sublist unchanged. -/
theorem C8_witness :
    (checkAndSplitObjects c2active [c2other, c2active]).1.filter (fun o => !(isWall o))
        = [c2other, c2active].filter (fun o => !(isWall o)) ∧
    c2active ∈ (checkAndSplitObjects c2active [c2other, c2active]).1 ∧
    (checkAndMergeWalls ⟨[c2other, c2active], [], 1⟩).objects.filter (fun o => !(isWall o))
        = [c2other, c2active].filter (fun o => !(isWall o)) := by
  have h := C8_topology_frame ⟨[c2other, c2active], [], 1⟩ c2active (by decide)
  exact ⟨h.1, h.2.1 c2active (by decide) rfl, h.2.2⟩

/-- A merge step keeps the selection inside the collection: either the
selection is replaced by the merged wall, which is inserted, or it
contained neither removed wall and survives the filter. -/
theorem applyMerge_selection {st : AppState} {w1 w2 : Obj} {span : Seg} {nid : Nat}
    (hsel : ∀ s ∈ st.selection, s ∈ st.objects) :
    ∀ s ∈ (applyMerge st w1 w2 span nid).selection,
      s ∈ (applyMerge st w1 w2 span nid).objects := by
  intro s hs
  have hs' : s ∈ (if st.selection.any (fun o => o.id == w1.id)
      || st.selection.any (fun o => o.id == w2.id)
      then [mergedObjOf w1 span nid] else st.selection) := hs
  show s ∈ (st.objects.filter fun (o : Obj) => !(o.id == w1.id || o.id == w2.id)) ++
    [mergedObjOf w1 span nid]
  by_cases hc : (st.selection.any (fun o => o.id == w1.id)
      || st.selection.any (fun o => o.id == w2.id)) = true
  · rw [if_pos hc] at hs'
    rw [List.mem_singleton] at hs'
    exact List.mem_append_right _ (hs' ▸ List.mem_singleton.mpr rfl)
  · rw [if_neg hc] at hs'
    have hc' : (st.selection.any fun o => o.id == w1.id) = false ∧
        (st.selection.any fun o => o.id == w2.id) = false := by
      cases h1 : st.selection.any fun o => o.id == w1.id <;>
        cases h2 : st.selection.any fun o => o.id == w2.id <;>
        simp_all
    have h1 : (s.id == w1.id) = false := by
      cases hb : s.id == w1.id
      · rfl
      · exact absurd (List.any_eq_true.mpr ⟨s, hs', hb⟩) (by rw [hc'.1]; simp)
    have h2 : (s.id == w2.id) = false := by
      cases hb : s.id == w2.id
      · rfl
      · exact absurd (List.any_eq_true.mpr ⟨s, hs', hb⟩) (by rw [hc'.2]; simp)
    exact List.mem_append_left _
      (List.mem_filter.mpr ⟨hsel s hs', by rw [h1, h2]; rfl⟩)

/-- Through the whole merge loop the selection stays inside the
collection. -/
theorem mergeLoop_selection :
    ∀ (fuel : Nat) (st st' : AppState), mergeLoop fuel st = some st' →
      (∀ s ∈ st.selection, s ∈ st.objects) → ∀ s ∈ st'.selection, s ∈ st'.objects := by
  intro fuel
  induction fuel with
  | zero => intro st st' h; cases h
  | succ f ih =>
    intro st st' h hsel
    rw [mergeLoop] at h
    cases hm : findMerge st.objects st.scale with
    | none => rw [hm] at h; cases h; exact hsel
    | some t =>
      obtain ⟨w1, w2, span⟩ := t
      rw [hm] at h
      exact ih _ _ h (applyMerge_selection hsel)

/-- C9.  Selection-membership invariant: if every selected object is in the
collection before checkAndMergeWalls, every selected object is still in
the collection afterwards. -/
theorem C9_selection_membership (st : AppState)
    (hsel : ∀ s ∈ st.selection, s ∈ st.objects) :
    ∀ s ∈ (checkAndMergeWalls st).selection, s ∈ (checkAndMergeWalls st).objects := by
  obtain ⟨st', h1, h2, -⟩ := checkAndMergeWalls_spec st
  rw [h2]
  exact mergeLoop_selection _ _ _ h1 hsel

/-- Witness for C9: merging the two selected collinear walls replaces the
selection with the merged wall, which is a member of the new collection. -/
theorem C9_witness :
    (⟨3, ObjType.wall, 0, 0, 100, 0, 10, 250, "#888888"⟩ : Obj) ∈
      (checkAndMergeWalls ⟨[c1w1, c1w2], [c1w1], 1⟩).objects :=
  C9_selection_membership ⟨[c1w1, c1w2], [c1w1], 1⟩ (by decide) _ (by decide)

end Huxingtu
